import Mathlib

/-!
Verification of the hierarchical centroid-routing engine of the
`semantic_router` repository against its specification.

The embedding models:
* `src/src/utils/converter.py` (`CentroidConverter`): incremental expert /
  group centroid maintenance over a persisted tracking state;
* `src/src/utils/visualizer.py` (`CentroidVisualizer`): the generated lookup
  artifact;
* `src/backend/utils/session_manager.py` (`SessionManager`): sliding-window
  conversation history, durable JSONL log, reload from disk;
* `src/backend/utils/llm_service.py` (`generate_response`) and
  `src/backend/api/main.py` (`process_query`): degraded responses and
  session-id defaulting;
* the two-stage nearest-centroid router (`MultiLayerRouter`), whose source
  file is not part of the repository snapshot and is therefore modelled from
  the specification.

Embedding vectors are rational-valued (`Fin D → ℚ`): numpy float arrays are
idealised as exact arithmetic.  Python dicts are insertion-ordered
association lists (`List (String × _)`); `upsert` updates an existing key in
place and appends a missing key at the end, exactly the mutation discipline
of a Python dict.
-/

namespace SemanticRouter

/-- Embedding vectors of the fixed model dimension `D`. -/
abbrev Vec (D : ℕ) := Fin D → ℚ

/-- numpy `vector / scalar`, componentwise division. -/
def divV {D : ℕ} (v : Vec D) (s : ℚ) : Vec D := fun i => v i / s

/-! ### Insertion-ordered dictionaries -/

/-- Python `d[k]` lookup on an insertion-ordered dict. -/
def alookup {α : Type} (k : String) : List (String × α) → Option α
  | [] => none
  | p :: rest => if p.1 = k then some p.2 else alookup k rest

/-- Python `d[k] = v`: update in place if the key exists, append otherwise. -/
def upsert {α : Type} (k : String) (v : α) : List (String × α) → List (String × α)
  | [] => [(k, v)]
  | p :: rest => if p.1 = k then (k, v) :: rest else p :: upsert k v rest

/-! ### `CentroidConverter` (src/src/utils/converter.py)

The tracking state is the persisted JSON hierarchy
`group -> {centroid, experts -> {centroid, files}}`. -/

/-- One expert's tracked data: `{"centroid": vector|null, "files": [...]}`. -/
structure ExpertData (D : ℕ) where
  centroid : Option (Vec D)
  files : Finset String
deriving DecidableEq

/-- One group's tracked data: `{"centroid": vector|null, "experts": {...}}`. -/
structure GroupData (D : ℕ) where
  centroid : Option (Vec D)
  experts : List (String × ExpertData D)
deriving DecidableEq

/-- The whole tracking file, a dict from group name to group data. -/
abbrev TrackingState (D : ℕ) := List (String × GroupData D)

/-- What one ingestion pass observes for one expert directory: the set of
(file names of the) PDF documents found there, and the text chunks produced
by the splitter, each tagged with its source file name and carrying its
embedding (the embedding model is an opaque collaborator, so chunk
embeddings are inputs here). -/
structure ExpertInput (D : ℕ) where
  currentFiles : Finset String
  chunks : List (String × Vec D)
deriving DecidableEq

/-- What one ingestion pass observes under `base_dir`: groups in directory
order, each with its expert directories in order. -/
abbrev IngestInput (D : ℕ) := List (String × List (String × ExpertInput D))

/-- converter.py line 121: `new_files = current_files - tracked_files`, then
line 130: with no stored centroid every current file counts as new. -/
def stepNewFiles {D : ℕ} (ed : ExpertData D) (inp : ExpertInput D) : Finset String :=
  if inp.currentFiles \ ed.files = ∅ then inp.currentFiles else inp.currentFiles \ ed.files

/-- converter.py lines 135-142: the embedding list is seeded with the stored
centroid scaled by the tracked-file count (and that count as the starting
weight) when both exist. -/
def stepSeed {D : ℕ} (ed : ExpertData D) : List (Vec D) × ℕ :=
  match ed.centroid with
  | some c => if ed.files = ∅ then ([], 0) else ([(ed.files.card : ℚ) • c], ed.files.card)
  | none => ([], 0)

/-- converter.py lines 145-148: the chunks whose source file is new. -/
def stepChunks {D : ℕ} (ed : ExpertData D) (inp : ExpertInput D) : List (String × Vec D) :=
  inp.chunks.filter fun ch => ch.1 ∈ stepNewFiles ed inp

/-- converter.py `all_embeddings` after the chunk loop. -/
def stepEmbs {D : ℕ} (ed : ExpertData D) (inp : ExpertInput D) : List (Vec D) :=
  (stepSeed ed).1 ++ (stepChunks ed inp).map Prod.snd

/-- converter.py `weight_sum` after the chunk loop: one unit per new chunk
(line 151) on top of the seed weight. -/
def stepW {D : ℕ} (ed : ExpertData D) (inp : ExpertInput D) : ℕ :=
  (stepSeed ed).2 + (stepChunks ed inp).length

/-- `CentroidConverter.get_expert_data`, lines 99-164: the centroid update
for one expert, given its tracked data and the directory observation.
Returns the new tracked data together with the function's return value
`(centroid, files)`: lines 121-127 (no new files and a stored centroid:
return it unchanged), lines 154-162 (divide the summed vectors by the
accumulated weight and record the union of tracked and new files), line 164
(nothing to sum: tracked data is left unchanged). -/
def stepExpert {D : ℕ} (ed : ExpertData D) (inp : ExpertInput D) :
    ExpertData D × Option (Vec D) × Finset String :=
  if inp.currentFiles \ ed.files = ∅ ∧ ed.centroid.isSome then
    (ed, ed.centroid, ed.files)
  else if stepEmbs ed inp = [] then
    (ed, ed.centroid, ed.files)
  else
    let c := divV (stepEmbs ed inp).sum ((stepW ed inp : ℕ) : ℚ)
    ({ centroid := some c, files := ed.files ∪ stepNewFiles ed inp },
      some c, ed.files ∪ stepNewFiles ed inp)

/-- The effect of one `get_expert_data` call on the enclosing group's expert
dict (converter.py lines 95-98 create the entry, the body then mutates it in
place; both together are one `upsert`). -/
def stepExpertEntry {D : ℕ} (exps : List (String × ExpertData D)) (e : String)
    (inp : ExpertInput D) :
    List (String × ExpertData D) × Option (Vec D) × Finset String :=
  let ed := (alookup e exps).getD ⟨none, ∅⟩
  let r := stepExpert ed inp
  (upsert e r.1 exps, r.2.1, r.2.2)

/-- The expert loop of `process_all` (converter.py lines 185-195) over one
group's expert directories: threads the expert dict and collects, in
iteration order, the `(centroid, files)` returns whose centroid is present
(`if centroid is not None`, line 193). -/
def foldExperts {D : ℕ} (exps : List (String × ExpertData D)) :
    List (String × ExpertInput D) →
    List (String × ExpertData D) × List (Vec D × Finset String)
  | [] => (exps, [])
  | p :: rest =>
    let r := stepExpertEntry exps p.1 p.2
    let next := foldExperts r.1 rest
    (next.1,
      (match r.2.1 with
        | some c => [(c, r.2.2)]
        | none => []) ++ next.2)

/-- `process_all` lines 198-202: the file-count-weighted mean of the
collected expert centroids, `np.sum([c * w ...]) / sum(weights)`. -/
def groupCentroid {D : ℕ} (outs : List (Vec D × Finset String)) : Vec D :=
  divV (outs.map fun o => (o.2.card : ℚ) • o.1).sum
    (((outs.map fun o => o.2.card).sum : ℕ) : ℚ)

/-- One iteration of the group loop of `process_all` (lines 174-202).  A
group directory with no expert subdirectories leaves the tracking state
untouched; otherwise the group's entry (created on first contact,
lines 90-91) receives the updated expert dict, and — when at least one
expert returned a centroid — the recomputed group centroid. -/
def stepGroup {D : ℕ} (st : TrackingState D) (g : String)
    (inputs : List (String × ExpertInput D)) : TrackingState D :=
  if inputs = [] then st
  else
    let gd := (alookup g st).getD { centroid := none, experts := [] }
    let r := foldExperts gd.experts inputs
    let cen := if r.2 = [] then gd.centroid else some (groupCentroid r.2)
    upsert g { centroid := cen, experts := r.1 } st

/-- `CentroidConverter.process_all` (lines 166-206): one full ingestion pass
over every group directory, in directory order. -/
def processAll {D : ℕ} (inp : IngestInput D) (st : TrackingState D) : TrackingState D :=
  inp.foldl (fun s p => stepGroup s p.1 p.2) st

/-! ### `CentroidVisualizer` (src/src/utils/visualizer.py) -/

/-- The generated lookup artifact `centroid_vectors.py`: the four mappings
`GROUP_CENTROIDS`, `EXPERT_CENTROIDS`, `EXPERT_TO_GROUP`, `GROUP_TO_EXPERTS`. -/
structure Artifact (D : ℕ) where
  groupCentroids : List (String × Vec D)
  expertCentroids : List (String × Vec D)
  expertToGroup : List (String × String)
  groupToExperts : List (String × List String)
deriving DecidableEq

/-- `CentroidVisualizer.generate_centroid_vectors_file`: a pure function of
the tracking state (entries with a `null` centroid are omitted from the two
centroid tables, lines 40 and 52). -/
def generateArtifact {D : ℕ} (st : TrackingState D) : Artifact D :=
  { groupCentroids := st.filterMap fun p => p.2.centroid.map fun c => (p.1, c)
  , expertCentroids :=
      (st.map fun p => p.2.experts.filterMap fun q => q.2.centroid.map fun c => (q.1, c)).flatten
  , expertToGroup := (st.map fun p => p.2.experts.map fun q => (q.1, p.1)).flatten
  , groupToExperts := st.map fun p => (p.1, p.2.experts.map Prod.fst) }

/-! ### `SessionManager` (src/backend/utils/session_manager.py) -/

/-- One JSONL record.  `add_message` (lines 80-88) always writes `timestamp`,
`query`, `response`, `conversation_context` and `expert`; the
session-cleared system event (lines 163-167) carries neither `query` nor
`response`; absent keys are `none`. -/
structure LogEntry where
  timestamp : Option ℚ
  query : Option String
  response : Option String
  conversation_context : Option String
  expert : Option String
deriving DecidableEq

/-- One line of a JSONL log file: either valid JSON or not
(`json.JSONDecodeError`, line 50). -/
inductive LogLine where
  | malformed (raw : String)
  | entry (e : LogEntry)
deriving DecidableEq

/-- `max_history`, the default 5 used by the backend (`SessionManager`
constructor default, main.py line 48 passes no override). -/
def maxHistory : ℕ := 5

/-- In-memory sessions dict plus the durable per-user append-only log (the
JSONL lines `_log_conversation` has written, tagged by user id; the per-day
file split does not affect content). -/
structure SMState where
  sessions : List (String × List LogEntry)
  log : List (String × LogEntry)
deriving DecidableEq

/-- The record `add_message` builds (lines 80-88):
`response.get("answer", "No answer provided")`. -/
def mkMessage (ts : ℚ) (query : String) (respAnswer : Option String)
    (ctx : String) (expert : Option String) : LogEntry :=
  { timestamp := some ts, query := some query
  , response := some (respAnswer.getD "No answer provided")
  , conversation_context := some ctx, expert := expert }

/-- `SessionManager.add_message` (lines 62-98): append the record to the
session history, append it to the durable log (line 94,
`_log_conversation`), then truncate the in-memory history to the last
`max_history` entries (lines 97-98).  The wall clock is an input. -/
def addMessage (st : SMState) (uid : String) (ts : ℚ) (query : String)
    (respAnswer : Option String) (ctx : String) (expert : Option String) : SMState :=
  let m := mkMessage ts query respAnswer ctx expert
  let hist := (alookup uid st.sessions).getD [] ++ [m]
  let hist2 := if maxHistory < hist.length then hist.drop (hist.length - maxHistory) else hist
  { sessions := upsert uid hist2 st.sessions, log := st.log ++ [(uid, m)] }

/-- The arguments of one `add_message` call. -/
structure AddArgs where
  ts : ℚ
  query : String
  respAnswer : Option String
  ctx : String
  expert : Option String
deriving DecidableEq

def toEntry (a : AddArgs) : LogEntry :=
  mkMessage a.ts a.query a.respAnswer a.ctx a.expert

/-- A sequence of `add_message` calls for one session. -/
def applyAdds (st : SMState) (uid : String) : List AddArgs → SMState
  | [] => st
  | a :: rest => applyAdds (addMessage st uid a.ts a.query a.respAnswer a.ctx a.expert) uid rest

/-- `SessionManager.get_history` (lines 100-110): `self.sessions.get(user_id, [])`. -/
def getHistory (st : SMState) (uid : String) : List LogEntry :=
  (alookup uid st.sessions).getD []

/-- The durable log lines recorded for one user, in append order. -/
def logFor (uid : String) (log : List (String × LogEntry)) : List LogEntry :=
  (log.filter fun p => p.1 = uid).map Prod.snd

/-- `_load_sessions_from_disk` line 48: keep only entries carrying both a
`query` and a `response` key; malformed lines are skipped (line 50). -/
def keepLine : LogLine → Option LogEntry
  | .malformed _ => none
  | .entry e => if e.query.isSome ∧ e.response.isSome then some e else none

/-- The sort key of line 59: `x.get('timestamp', 0)`. -/
def tsLe (a b : LogEntry) : Bool := a.timestamp.getD 0 ≤ b.timestamp.getD 0

/-- Python `s.split("_", maxsplit)` over the character list: split on `'_'`
at most `maxsplit` times; once the budget is spent the remainder, underscores
included, stays one part. -/
def splitUS : ℕ → List Char → List Char → List (List Char)
  | _, acc, [] => [acc.reverse]
  | 0, acc, rest => [acc.reverse ++ rest]
  | n + 1, acc, c :: cs =>
    if c = '_' then acc.reverse :: splitUS n [] cs
    else splitUS (n + 1) (c :: acc) cs

/-- Python `filename.split("_", 2)`. -/
def pySplit2 (s : String) : List String :=
  (splitUS 2 [] s.data).map fun cs => ⟨cs⟩

/-- session_manager.py lines 32-35: the user id is reconstructed from the
log filename as `filename.split("_",2)[0] + "_" + filename.split("_",2)[1]`
— the first two underscore-separated segments.  With fewer than two
segments the `[1]` subscript raises (`none`). -/
def userIdOfFilename (filename : String) : Option String :=
  match pySplit2 filename with
  | p0 :: p1 :: _ => some (p0 ++ "_" ++ p1)
  | _ => none

/-- `_log_conversation` line 182: the per-day log file
`f"{user_id}_{date_str}.jsonl"`. -/
def logFileName (uid date : String) : String := uid ++ "_" ++ date ++ ".jsonl"

/-- `SessionManager._load_sessions_from_disk` (lines 25-60): for each log
file, recover the user id from the file name (lines 32-35; a name with
fewer than two underscore-separated segments raises, `none`) and append its
message entries to that user's list, skipping malformed lines and entries
without both `query` and `response`; then per user, sort by timestamp
(Python `sorted` is stable, as is `List.mergeSort`) and keep the last
`max_history` (`[-self.max_history:]`).  Input: `(filename, lines)` pairs
in `glob` order. -/
def loadSessions (files : List (String × List LogLine)) :
    Option (List (String × List LogEntry)) :=
  (files.foldl
    (fun acc? f =>
      acc?.bind fun acc =>
        (userIdOfFilename f.1).map fun uid =>
          upsert uid ((alookup uid acc).getD [] ++ f.2.filterMap keepLine) acc)
    (some []))
  |>.map fun acc => acc.map fun p => (p.1, (p.2.mergeSort tsLe).rtake maxHistory)

/-! ### `generate_response` (src/backend/utils/llm_service.py) and
`process_query` (src/backend/api/main.py) -/

/-- A Python dict response: both keys optional, because the error paths of
`generate_response` return an `answer`-only dict. -/
structure RespDict where
  answer : Option String
  sources : Option ℕ
deriving DecidableEq

/-- What the generation collaborator call inside the `try` block does:
returns text or raises (API failure and timeout both surface as a raised
exception). -/
inductive GenOutcome where
  | ok (answer : String)
  | err (msg : String)
deriving DecidableEq

/-- `generate_response` (llm_service.py lines 14-69).  No API key: fixed
message, no `sources` key (line 29).  Success: answer plus
`sources = len(context[0])` (line 66) — with an empty context list that
subscript itself raises and is caught.  Any exception: `"Error generating
response: ..."`, no `sources` key (line 69); nothing propagates. -/
def generate_response (hasKey : Bool) (context : List (List String))
    (outcome : GenOutcome) : RespDict :=
  if !hasKey then
    { answer := some "OpenAI API key not found. Please set the OPENAI_API_KEY environment variable."
    , sources := none }
  else
    match outcome with
    | .ok ans =>
      match context with
      | [] => { answer := some ("Error generating response: " ++ "list index out of range")
              , sources := none }
      | c0 :: _ => { answer := some ans, sources := some c0.length }
    | .err msg => { answer := some ("Error generating response: " ++ msg), sources := none }

/-- Modelled from the spec: `MultiLayerRouter.route_query`
(backend/router/multi_layer_router.py is not part of the repository
snapshot).  Per spec sections 4.3 and 7 and the call site main.py line 69,
it hands the generation collaborator's response dict and the routed expert
name to the API layer; collaborator failures are already converted to
degraded response dicts and are not propagated. -/
def route_query_result (resp : RespDict) (bestExpert : Option String) :
    RespDict × Option String :=
  (resp, bestExpert)

/-- `QueryRequest` (api/models/schemas.py): `session_id: Optional[str] = None`. -/
structure QueryRequest where
  query : String
  session_id : Option String
deriving DecidableEq

structure QueryResponse where
  answer : String
  session_id : String
  expert : String
  sources : ℕ
deriving DecidableEq

/-- Python `a or b` on an optional string: `None` and `""` are both falsy. -/
def pyOr (a : Option String) (dflt : String) : String :=
  match a with
  | none => dflt
  | some s => if s = "" then dflt else s

/-- Python `str.title()` restricted to space-separated words (how main.py
line 73 uses it after replacing underscores by spaces). -/
def titleCase (s : String) : String :=
  String.intercalate " " ((s.splitOn " ").map String.capitalize)

/-- `process_query` (main.py lines 61-82): default the session id (line 65),
format the expert name (lines 72-75), and build the response with
`response.get("answer", "No response generated")` and
`response.get("sources", 0)` (lines 77-82). -/
def process_query (req : QueryRequest) (routed : RespDict × Option String) : QueryResponse :=
  { answer := routed.1.answer.getD "No response generated"
  , session_id := pyOr req.session_id "user_default"
  , expert :=
      match routed.2 with
      | none => "unknown"
      | some s => if s = "" then "unknown" else titleCase (s.replace "_" " ")
  , sources := routed.1.sources.getD 0 }

/-! ### The two-stage router (spec sections 4.2 and 6)

`MultiLayerRouter` (backend/router/multi_layer_router.py and
src/router/multi_layer_router.py) is imported by both entry points but its
source file is not part of the repository snapshot, so the dispatch is
modelled from the specification. -/

/-- The dot product of two embedding vectors. -/
def dotV {D : ℕ} (a b : Vec D) : ℚ := ∑ i, a i * b i

/-- Modelled from the spec: the cosine-similarity comparison
`cos(q,a) > cos(q,b)` used by `MultiLayerRouter`'s argmax (spec section 4.2:
"Compute cosine similarity ... select the argmax").  Decided exactly over ℚ
by sign analysis and squaring, since `cos(q,v) = dot(q,v)/(‖q‖‖v‖)` has
irrational norms; `cosGt_iff_cosSimR` below proves this Boolean equivalent
to the real-valued comparison. -/
def cosGt {D : ℕ} (q a b : Vec D) : Bool :=
  if 0 ≤ dotV q b then
    if dotV q a ≤ 0 then false
    else decide ((dotV q b) ^ 2 * dotV a a < (dotV q a) ^ 2 * dotV b b)
  else
    if 0 ≤ dotV q a then true
    else decide ((dotV q a) ^ 2 * dotV b b < (dotV q b) ^ 2 * dotV a a)

/-- Modelled from the spec: nearest-centroid argmax with "ties broken
deterministically by insertion order" — a later candidate replaces the
current best only when strictly more similar, so the first maximum wins. -/
def selectBest {α : Type} {D : ℕ} (q : Vec D) (cen : α → Vec D) :
    List α → Option α
  | [] => none
  | x :: xs => some (xs.foldl (fun best y => if cosGt q (cen y) (cen best) then y else best) x)

/-- An expert entry of the loaded lookup artifact (`EXPERT_CENTROIDS`). -/
structure RExpert (D : ℕ) where
  name : String
  centroid : Vec D
deriving DecidableEq

/-- A group of the loaded lookup artifact: its centroid
(`GROUP_CENTROIDS`) and its member experts (`GROUP_TO_EXPERTS` joined with
`EXPERT_CENTROIDS`), in insertion order. -/
structure RGroup (D : ℕ) where
  name : String
  centroid : Vec D
  experts : List (RExpert D)
deriving DecidableEq

/-- Modelled from the spec: `MultiLayerRouter`'s two-stage dispatch (spec
section 4.2): stage 1, argmax of cosine similarity over every group
centroid; stage 2, argmax over the chosen group's member experts only.
`none` exactly when the snapshot has zero groups (`NoExpertsAvailable`) or
the chosen group has no experts. -/
def route {D : ℕ} (q : Vec D) (store : List (RGroup D)) :
    Option (RGroup D × RExpert D) :=
  match selectBest q RGroup.centroid store with
  | none => none
  | some g =>
    match selectBest q RExpert.centroid g.experts with
    | none => none
    | some e => some (g, e)

/-- Real-valued cosine similarity, the mathematical reading of
`cosine_similarity` over the rational embedding vectors. -/
noncomputable def cosSimR {D : ℕ} (q v : Vec D) : ℝ :=
  ((dotV q v : ℚ) : ℝ) / (Real.sqrt ((dotV q q : ℚ) : ℝ) * Real.sqrt ((dotV v v : ℚ) : ℝ))

/-! ## Theorems -/

@[simp] theorem alookup_nil {α : Type} (k : String) : alookup (α := α) k [] = none := rfl

@[simp] theorem alookup_cons {α : Type} (k : String) (p : String × α) (l : List (String × α)) :
    alookup k (p :: l) = if p.1 = k then some p.2 else alookup k l := rfl

theorem alookup_upsert_self {α : Type} (k : String) (v : α) (l : List (String × α)) :
    alookup k (upsert k v l) = some v := by
  induction l with
  | nil => simp [upsert]
  | cons p rest ih =>
    by_cases h : p.1 = k
    · simp [upsert, h]
    · simp [upsert, h, ih]

theorem alookup_upsert_ne {α : Type} {k k' : String} (h : k' ≠ k) (v : α)
    (l : List (String × α)) : alookup k' (upsert k v l) = alookup k' l := by
  induction l with
  | nil => simp [upsert, alookup, Ne.symm h]
  | cons p rest ih =>
    by_cases hp : p.1 = k
    · simp [upsert, hp, alookup, Ne.symm h]
    · simp [upsert, hp, alookup, ih]

theorem upsert_eq_self {α : Type} {k : String} {v : α} {l : List (String × α)}
    (h : alookup k l = some v) : upsert k v l = l := by
  induction l with
  | nil => simp [alookup] at h
  | cons p rest ih =>
    by_cases hp : p.1 = k
    · obtain ⟨k0, v0⟩ := p
      simp only at hp
      subst hp
      simp [alookup] at h
      simp [upsert, h]
    · simp [alookup, hp] at h
      simp [upsert, hp, ih h]

theorem stepExpert_snd {D : ℕ} (ed : ExpertData D) (inp : ExpertInput D) :
    (stepExpert ed inp).2 = ((stepExpert ed inp).1.centroid, (stepExpert ed inp).1.files) := by
  unfold stepExpert
  split_ifs <;> simp

theorem stepExpert_files_mono {D : ℕ} (ed : ExpertData D) (inp : ExpertInput D) :
    ed.files ⊆ (stepExpert ed inp).1.files := by
  unfold stepExpert
  split_ifs <;> simp

/-- The current files are covered by the tracked set united with the new
files. -/
theorem currentFiles_subset_step {D : ℕ} (ed : ExpertData D) (inp : ExpertInput D) :
    inp.currentFiles ⊆ ed.files ∪ stepNewFiles ed inp := by
  unfold stepNewFiles
  split_ifs with h
  · exact Finset.subset_union_right
  · intro x hx
    by_cases hxf : x ∈ ed.files
    · exact Finset.mem_union_left _ hxf
    · exact Finset.mem_union_right _ (Finset.mem_sdiff.2 ⟨hx, hxf⟩)

/-- Re-running `get_expert_data` on the expert data it just produced, with
the same directory observation, changes nothing and returns the same
`(centroid, files)` pair. -/
theorem stepExpert_stable {D : ℕ} (ed : ExpertData D) (inp : ExpertInput D) :
    stepExpert (stepExpert ed inp).1 inp = ((stepExpert ed inp).1, (stepExpert ed inp).2) := by
  by_cases h1 : inp.currentFiles \ ed.files = ∅ ∧ ed.centroid.isSome
  · have hed : (stepExpert ed inp).1 = ed := by unfold stepExpert; rw [if_pos h1]
    rw [hed, stepExpert_snd, hed]
    unfold stepExpert
    rw [if_pos h1]
  · by_cases h2 : stepEmbs ed inp = []
    · have hed : (stepExpert ed inp).1 = ed := by
        unfold stepExpert
        rw [if_neg h1, if_pos h2]
      rw [hed, stepExpert_snd, hed]
      unfold stepExpert
      rw [if_neg h1, if_pos h2]
    · have hstep : (stepExpert ed inp).1 =
          { centroid := some (divV (stepEmbs ed inp).sum ((stepW ed inp : ℕ) : ℚ))
          , files := ed.files ∪ stepNewFiles ed inp } := by
        unfold stepExpert
        rw [if_neg h1, if_neg h2]
      have hsub : inp.currentFiles \ (stepExpert ed inp).1.files = ∅ := by
        rw [hstep]
        exact Finset.sdiff_eq_empty_iff_subset.2 (currentFiles_subset_step ed inp)
      have hsome : (stepExpert ed inp).1.centroid.isSome := by rw [hstep]; rfl
      conv_lhs => rw [stepExpert]
      rw [if_pos ⟨hsub, hsome⟩, stepExpert_snd]

/-- converter.py lines 123-127: an already-seen expert with no new files gets
its stored centroid back, with no recomputation and no state change. -/
theorem stepExpert_no_new_files {D : ℕ} (ed : ExpertData D) (c : Vec D)
    (inp : ExpertInput D) (hc : ed.centroid = some c)
    (hsub : inp.currentFiles ⊆ ed.files) :
    stepExpert ed inp = (ed, some c, ed.files) := by
  unfold stepExpert
  rw [if_pos ⟨Finset.sdiff_eq_empty_iff_subset.2 hsub, by rw [hc]; rfl⟩, hc]

theorem stepExpertEntry_lookup_self {D : ℕ} (exps : List (String × ExpertData D))
    (e : String) (inp : ExpertInput D) :
    alookup e (stepExpertEntry exps e inp).1 =
      some (stepExpert ((alookup e exps).getD ⟨none, ∅⟩) inp).1 := by
  unfold stepExpertEntry
  exact alookup_upsert_self ..

theorem stepExpertEntry_lookup_ne {D : ℕ} {e e' : String}
    (h : e' ≠ e) (exps : List (String × ExpertData D)) (inp : ExpertInput D) :
    alookup e' (stepExpertEntry exps e inp).1 = alookup e' exps := by
  unfold stepExpertEntry
  exact alookup_upsert_ne h ..

/-- Processing an expert whose stored entry is already the stepped value is a
no-op producing the same `(centroid, files)` return. -/
theorem stepExpertEntry_fix {D : ℕ} {exps exps2 : List (String × ExpertData D)}
    {e : String} {inp : ExpertInput D}
    (h : alookup e exps2 =
      some (stepExpert ((alookup e exps).getD ⟨none, ∅⟩) inp).1) :
    stepExpertEntry exps2 e inp =
      (exps2, (stepExpert ((alookup e exps).getD ⟨none, ∅⟩) inp).2) := by
  simp only [stepExpertEntry, h, Option.getD_some, stepExpert_stable]
  rw [upsert_eq_self h]

theorem foldExperts_lookup_ne {D : ℕ} {e : String}
    (inputs : List (String × ExpertInput D)) (exps : List (String × ExpertData D))
    (h : e ∉ inputs.map Prod.fst) :
    alookup e (foldExperts exps inputs).1 = alookup e exps := by
  induction inputs generalizing exps with
  | nil => rfl
  | cons p rest ih =>
    simp only [List.map_cons, List.mem_cons, not_or] at h
    rw [foldExperts]
    exact (ih _ h.2).trans (stepExpertEntry_lookup_ne h.1 ..)

/-- The expert loop is a no-op when re-run on the expert dict it produced
(expert directory names are distinct within a group). -/
theorem foldExperts_stable {D : ℕ} (inputs : List (String × ExpertInput D))
    (exps : List (String × ExpertData D))
    (hnd : (inputs.map Prod.fst).Nodup) :
    foldExperts (foldExperts exps inputs).1 inputs =
      ((foldExperts exps inputs).1, (foldExperts exps inputs).2) := by
  induction inputs generalizing exps with
  | nil => rfl
  | cons p rest ih =>
    simp only [List.map_cons, List.nodup_cons] at hnd
    have hlook : alookup p.1 (foldExperts (stepExpertEntry exps p.1 p.2).1 rest).1 =
        some (stepExpert ((alookup p.1 exps).getD ⟨none, ∅⟩) p.2).1 := by
      rw [foldExperts_lookup_ne rest _ hnd.1, stepExpertEntry_lookup_self]
    conv_lhs => rw [foldExperts]
    conv_rhs => rw [foldExperts]
    rw [foldExperts]
    simp only [stepExpertEntry_fix hlook]
    rw [ih _ hnd.2]
    rfl

theorem stepGroup_lookup_ne {D : ℕ} {g g' : String} (h : g' ≠ g)
    (st : TrackingState D) (inputs : List (String × ExpertInput D)) :
    alookup g' (stepGroup st g inputs) = alookup g' st := by
  unfold stepGroup
  split_ifs with hi
  · rfl
  · exact alookup_upsert_ne h ..

/-- After `stepGroup st g inputs`, the group's entry is fixed: re-running the
group iteration on any state carrying that entry changes nothing. -/
theorem stepGroup_fix {D : ℕ} {st st2 : TrackingState D} {g : String}
    {inputs : List (String × ExpertInput D)}
    (hnd : (inputs.map Prod.fst).Nodup)
    (h : alookup g st2 = alookup g (stepGroup st g inputs)) :
    stepGroup st2 g inputs = st2 := by
  by_cases hi : inputs = []
  · rw [stepGroup, if_pos hi]
  · have hst : stepGroup st g inputs =
        upsert g
          { centroid :=
              if (foldExperts ((alookup g st).getD { centroid := none, experts := [] }).experts inputs).2 = []
              then ((alookup g st).getD { centroid := none, experts := [] }).centroid
              else some (groupCentroid (foldExperts ((alookup g st).getD { centroid := none, experts := [] }).experts inputs).2)
          , experts := (foldExperts ((alookup g st).getD { centroid := none, experts := [] }).experts inputs).1 } st := by
      rw [stepGroup, if_neg hi]
    rw [hst, alookup_upsert_self] at h
    rw [stepGroup, if_neg hi, h]
    simp only [Option.getD_some]
    rw [foldExperts_stable _ _ hnd]
    have hcen :
        (if (foldExperts ((alookup g st).getD { centroid := none, experts := [] }).experts inputs).2 = []
          then (if (foldExperts ((alookup g st).getD { centroid := none, experts := [] }).experts inputs).2 = []
                then ((alookup g st).getD { centroid := none, experts := [] }).centroid
                else some (groupCentroid (foldExperts ((alookup g st).getD { centroid := none, experts := [] }).experts inputs).2))
          else some (groupCentroid (foldExperts ((alookup g st).getD { centroid := none, experts := [] }).experts inputs).2)) =
        (if (foldExperts ((alookup g st).getD { centroid := none, experts := [] }).experts inputs).2 = []
          then ((alookup g st).getD { centroid := none, experts := [] }).centroid
          else some (groupCentroid (foldExperts ((alookup g st).getD { centroid := none, experts := [] }).experts inputs).2)) := by
      split_ifs <;> rfl
    rw [hcen]
    exact upsert_eq_self h

theorem processAll_lookup_ne {D : ℕ} {g : String} (inp : IngestInput D)
    (st : TrackingState D) (h : g ∉ inp.map Prod.fst) :
    alookup g (processAll inp st) = alookup g st := by
  induction inp generalizing st with
  | nil => rfl
  | cons p rest ih =>
    simp only [List.map_cons, List.mem_cons, not_or] at h
    show alookup g (processAll rest (stepGroup st p.1 p.2)) = alookup g st
    exact (ih _ h.2).trans (stepGroup_lookup_ne h.1 ..)

/-- A second ingestion pass over the same directory observation is a no-op
on the tracking state (group and expert directory names are distinct). -/
theorem processAll_stable {D : ℕ} (inp : IngestInput D) (st : TrackingState D)
    (hnd : (inp.map Prod.fst).Nodup)
    (hexp : ∀ p ∈ inp, (p.2.map Prod.fst).Nodup) :
    processAll inp (processAll inp st) = processAll inp st := by
  induction inp generalizing st with
  | nil => rfl
  | cons p rest ih =>
    simp only [List.map_cons, List.nodup_cons] at hnd
    have hA : processAll (p :: rest) st = processAll rest (stepGroup st p.1 p.2) := rfl
    rw [hA]
    show processAll rest
        (stepGroup (processAll rest (stepGroup st p.1 p.2)) p.1 p.2) =
      processAll rest (stepGroup st p.1 p.2)
    rw [stepGroup_fix (hexp p (List.mem_cons_self ..))
      (processAll_lookup_ne rest _ hnd.1)]
    exact ih _ hnd.2 (fun q hq => hexp q (List.mem_cons_of_mem _ hq))

theorem foldExperts_files_mono {D : ℕ} (inputs : List (String × ExpertInput D))
    (exps : List (String × ExpertData D)) {e : String} {ed : ExpertData D}
    (h : alookup e exps = some ed) :
    ∃ ed', alookup e (foldExperts exps inputs).1 = some ed' ∧ ed.files ⊆ ed'.files := by
  induction inputs generalizing exps ed with
  | nil => exact ⟨ed, h, subset_rfl⟩
  | cons p rest ih =>
    by_cases hpe : e = p.1
    · subst hpe
      have h1 : alookup p.1 (stepExpertEntry exps p.1 p.2).1 = some (stepExpert ed p.2).1 := by
        rw [stepExpertEntry_lookup_self, h, Option.getD_some]
      obtain ⟨ed', h2, h3⟩ := ih _ h1
      exact ⟨ed', h2, (stepExpert_files_mono ed p.2).trans h3⟩
    · have h1 : alookup e (stepExpertEntry exps p.1 p.2).1 = some ed := by
        rw [stepExpertEntry_lookup_ne hpe]
        exact h
      obtain ⟨ed', h2, h3⟩ := ih _ h1
      exact ⟨ed', h2, h3⟩

theorem stepGroup_files_mono {D : ℕ} (st : TrackingState D) (g : String)
    (inputs : List (String × ExpertInput D)) {g' : String} {gd : GroupData D}
    (h : alookup g' st = some gd) :
    ∃ gd', alookup g' (stepGroup st g inputs) = some gd' ∧
      ∀ e ed, alookup e gd.experts = some ed →
        ∃ ed', alookup e gd'.experts = some ed' ∧ ed.files ⊆ ed'.files := by
  by_cases hi : inputs = []
  · refine ⟨gd, ?_, fun e ed he => ⟨ed, he, subset_rfl⟩⟩
    rw [stepGroup, if_pos hi]
    exact h
  · by_cases hg : g' = g
    · subst hg
      refine ⟨⟨(if (foldExperts ((alookup g' st).getD { centroid := none, experts := [] }).experts inputs).2 = []
              then ((alookup g' st).getD { centroid := none, experts := [] }).centroid
              else some (groupCentroid
                (foldExperts ((alookup g' st).getD { centroid := none, experts := [] }).experts inputs).2)),
            (foldExperts ((alookup g' st).getD { centroid := none, experts := [] }).experts inputs).1⟩,
          ?_, ?_⟩
      · rw [stepGroup, if_neg hi]
        exact alookup_upsert_self ..
      · intro e ed he
        have he' : alookup e ((alookup g' st).getD { centroid := none, experts := [] }).experts
            = some ed := by rw [h]; exact he
        exact foldExperts_files_mono inputs _ he'
    · refine ⟨gd, ?_, fun e ed he => ⟨ed, he, subset_rfl⟩⟩
      rw [stepGroup_lookup_ne hg]
      exact h

theorem processAll_files_mono {D : ℕ} (inp : IngestInput D) (st : TrackingState D)
    {g e : String} {gd : GroupData D} {ed : ExpertData D}
    (hg : alookup g st = some gd) (he : alookup e gd.experts = some ed) :
    ∃ gd' ed', alookup g (processAll inp st) = some gd' ∧
      alookup e gd'.experts = some ed' ∧ ed.files ⊆ ed'.files := by
  induction inp generalizing st gd ed with
  | nil => exact ⟨gd, ed, hg, he, subset_rfl⟩
  | cons p rest ih =>
    obtain ⟨gd1, h1, hmono⟩ := stepGroup_files_mono st p.1 p.2 hg
    obtain ⟨ed1, he1, hsub1⟩ := hmono e ed he
    obtain ⟨gd', ed', h2, h3, h4⟩ := ih _ h1 he1
    exact ⟨gd', ed', h2, h3, hsub1.trans h4⟩

/-- Closed form of the update branch (converter.py lines 135-162): an
already-seen expert with new files gets the streaming weighted-mean update,
where each chunk from a new file adds one unit of weight. -/
theorem stepExpert_update {D : ℕ} (ed : ExpertData D) (inp : ExpertInput D) (c : Vec D)
    (hc : ed.centroid = some c) (hfiles : ed.files ≠ ∅)
    (hnew : inp.currentFiles \ ed.files ≠ ∅) :
    stepExpert ed inp =
      ({ centroid := some (divV
            ((ed.files.card : ℚ) • c +
              ((inp.chunks.filter fun ch => ch.1 ∈ inp.currentFiles \ ed.files).map Prod.snd).sum)
            ((ed.files.card +
              (inp.chunks.filter fun ch => ch.1 ∈ inp.currentFiles \ ed.files).length : ℕ) : ℚ))
        , files := ed.files ∪ (inp.currentFiles \ ed.files) },
        some (divV
            ((ed.files.card : ℚ) • c +
              ((inp.chunks.filter fun ch => ch.1 ∈ inp.currentFiles \ ed.files).map Prod.snd).sum)
            ((ed.files.card +
              (inp.chunks.filter fun ch => ch.1 ∈ inp.currentFiles \ ed.files).length : ℕ) : ℚ)),
        ed.files ∪ (inp.currentFiles \ ed.files)) := by
  have h1 : ¬(inp.currentFiles \ ed.files = ∅ ∧ ed.centroid.isSome) := fun h => hnew h.1
  have hnf : stepNewFiles ed inp = inp.currentFiles \ ed.files := if_neg hnew
  have hseed : stepSeed ed = ([(ed.files.card : ℚ) • c], ed.files.card) := by
    simp [stepSeed, hc, hfiles]
  have hchunks : stepChunks ed inp =
      inp.chunks.filter fun ch => ch.1 ∈ inp.currentFiles \ ed.files := by
    simp [stepChunks, hnf]
  have hembs : stepEmbs ed inp =
      (ed.files.card : ℚ) • c ::
        ((inp.chunks.filter fun ch => ch.1 ∈ inp.currentFiles \ ed.files).map Prod.snd) := by
    simp [stepEmbs, hseed, hchunks]
  have h2 : stepEmbs ed inp ≠ [] := by rw [hembs]; simp
  have hw : stepW ed inp =
      ed.files.card + (inp.chunks.filter fun ch => ch.1 ∈ inp.currentFiles \ ed.files).length := by
    simp [stepW, hseed, hchunks]
  unfold stepExpert
  rw [if_neg h1, if_neg h2, hembs, hw, hnf, List.sum_cons]

/-- Closed form of the first-contact branch: a previously unseen expert gets
the arithmetic mean of all its chunk embeddings, and its tracked files are
exactly the current files. -/
theorem stepExpert_unseen {D : ℕ} (inp : ExpertInput D)
    (hch : inp.chunks ≠ []) (hsrc : ∀ ch ∈ inp.chunks, ch.1 ∈ inp.currentFiles) :
    stepExpert (⟨none, ∅⟩ : ExpertData D) inp =
      ({ centroid := some (divV (inp.chunks.map Prod.snd).sum ((inp.chunks.length : ℕ) : ℚ))
        , files := inp.currentFiles },
        some (divV (inp.chunks.map Prod.snd).sum ((inp.chunks.length : ℕ) : ℚ)),
        inp.currentFiles) := by
  have hed : (⟨none, ∅⟩ : ExpertData D).centroid.isSome = false := rfl
  have h1 : ¬(inp.currentFiles \ (∅ : Finset String) = ∅ ∧
      (⟨none, ∅⟩ : ExpertData D).centroid.isSome) := by
    simp [hed]
  have hnf : stepNewFiles (⟨none, ∅⟩ : ExpertData D) inp = inp.currentFiles := by
    unfold stepNewFiles
    simp
  have hseed : stepSeed (⟨none, ∅⟩ : ExpertData D) = ([], 0) := rfl
  have hchunks : stepChunks (⟨none, ∅⟩ : ExpertData D) inp = inp.chunks := by
    rw [stepChunks, hnf]
    exact List.filter_eq_self.2 fun ch hm => decide_eq_true (hsrc ch hm)
  have hembs : stepEmbs (⟨none, ∅⟩ : ExpertData D) inp = inp.chunks.map Prod.snd := by
    simp [stepEmbs, hseed, hchunks]
  have h2 : stepEmbs (⟨none, ∅⟩ : ExpertData D) inp ≠ [] := by
    rw [hembs]
    simpa using hch
  have hw : stepW (⟨none, ∅⟩ : ExpertData D) inp = inp.chunks.length := by
    simp [stepW, hseed, hchunks]
  unfold stepExpert
  rw [if_neg h1, if_neg h2, hembs, hw, hnf]
  simp

/-- The collected `(centroid, files)` pairs of the expert loop are exactly
the post-pass stored data of the processed experts that have a centroid, in
iteration order. -/
theorem foldExperts_out_eq {D : ℕ} (inputs : List (String × ExpertInput D))
    (exps : List (String × ExpertData D)) (hnd : (inputs.map Prod.fst).Nodup) :
    (foldExperts exps inputs).2 = inputs.filterMap fun p =>
      ((alookup p.1 (foldExperts exps inputs).1).getD ⟨none, ∅⟩).centroid.map
        fun c => (c, ((alookup p.1 (foldExperts exps inputs).1).getD ⟨none, ∅⟩).files) := by
  induction inputs generalizing exps with
  | nil => rfl
  | cons p rest ih =>
    simp only [List.map_cons, List.nodup_cons] at hnd
    have hstate : (foldExperts exps (p :: rest)).1 =
        (foldExperts (stepExpertEntry exps p.1 p.2).1 rest).1 := rfl
    have hout : (foldExperts exps (p :: rest)).2 =
        (match (stepExpertEntry exps p.1 p.2).2.1 with
          | some c => [(c, (stepExpertEntry exps p.1 p.2).2.2)]
          | none => []) ++ (foldExperts (stepExpertEntry exps p.1 p.2).1 rest).2 := rfl
    have hlook : alookup p.1 (foldExperts (stepExpertEntry exps p.1 p.2).1 rest).1 =
        some (stepExpert ((alookup p.1 exps).getD ⟨none, ∅⟩) p.2).1 := by
      rw [foldExperts_lookup_ne rest _ hnd.1, stepExpertEntry_lookup_self]
    have hsnd : (stepExpertEntry exps p.1 p.2).2 =
        ((stepExpert ((alookup p.1 exps).getD ⟨none, ∅⟩) p.2).1.centroid,
          (stepExpert ((alookup p.1 exps).getD ⟨none, ∅⟩) p.2).1.files) :=
      stepExpert_snd ..
    rw [hout, List.filterMap_cons, hstate, hlook, ih _ hnd.2, hsnd]
    simp only [Option.getD_some]
    cases (stepExpert ((alookup p.1 exps).getD ⟨none, ∅⟩) p.2).1.centroid <;> simp

/-- After a pass, the stored centroid of a processed group is the
file-count-weighted mean of the post-pass stored centroids and file counts
of its processed member experts (provided some member produced one). -/
theorem processAll_group_centroid {D : ℕ} (inp : IngestInput D) (st : TrackingState D)
    (g : String) (inputs : List (String × ExpertInput D))
    (hnd : (inp.map Prod.fst).Nodup) (hend : (inputs.map Prod.fst).Nodup)
    (hmem : (g, inputs) ∈ inp) (hi : inputs ≠ []) :
    ∃ gd', alookup g (processAll inp st) = some gd' ∧
      ((inputs.filterMap fun p =>
          ((alookup p.1 gd'.experts).getD ⟨none, ∅⟩).centroid.map
            fun c => (c, ((alookup p.1 gd'.experts).getD ⟨none, ∅⟩).files)) ≠ [] →
        gd'.centroid = some (groupCentroid (inputs.filterMap fun p =>
          ((alookup p.1 gd'.experts).getD ⟨none, ∅⟩).centroid.map
            fun c => (c, ((alookup p.1 gd'.experts).getD ⟨none, ∅⟩).files)))) := by
  induction inp generalizing st with
  | nil => cases hmem
  | cons q rest ih =>
    simp only [List.map_cons, List.nodup_cons] at hnd
    have hstep : processAll (q :: rest) st = processAll rest (stepGroup st q.1 q.2) := rfl
    rcases List.mem_cons.1 hmem with hq | hq
    · subst hq
      have hlook : alookup g (processAll rest (stepGroup st g inputs)) =
          alookup g (stepGroup st g inputs) :=
        processAll_lookup_ne rest _ hnd.1
      have hsg : stepGroup st g inputs =
          upsert g
            ⟨(if (foldExperts ((alookup g st).getD { centroid := none, experts := [] }).experts inputs).2 = []
                then ((alookup g st).getD { centroid := none, experts := [] }).centroid
                else some (groupCentroid
                  (foldExperts ((alookup g st).getD { centroid := none, experts := [] }).experts inputs).2)),
              (foldExperts ((alookup g st).getD { centroid := none, experts := [] }).experts inputs).1⟩ st := by
        rw [stepGroup, if_neg hi]
      refine ⟨_, by rw [hstep, hlook, hsg, alookup_upsert_self], ?_⟩
      intro hne
      have houts := foldExperts_out_eq inputs
        ((alookup g st).getD { centroid := none, experts := [] }).experts hend
      rw [← houts] at hne ⊢
      rw [if_neg hne]
    · have hne : q.1 ≠ g := by
        intro hqg
        exact hnd.1 (hqg ▸ (List.mem_map_of_mem Prod.fst hq : (g, inputs).1 ∈ _))
      rw [hstep]
      exact ih _ hnd.2 hq

/-- C3.  Re-running ingestion with zero new files is a no-op: an
already-seen expert with no new files gets its stored centroid back with no
state change, a repeated full pass leaves the tracking state — hence every
expert centroid and every group centroid — unchanged, and the generated
lookup artifact is identical (group and expert directory names are distinct
within a directory listing). -/
theorem claim_C3_ingest_idempotent :
    (∀ (D : ℕ) (ed : ExpertData D) (c : Vec D) (inp : ExpertInput D),
        ed.centroid = some c → inp.currentFiles ⊆ ed.files →
        stepExpert ed inp = (ed, some c, ed.files)) ∧
    (∀ (D : ℕ) (inp : IngestInput D) (st : TrackingState D),
        (inp.map Prod.fst).Nodup → (∀ p ∈ inp, (p.2.map Prod.fst).Nodup) →
        processAll inp (processAll inp st) = processAll inp st) ∧
    (∀ (D : ℕ) (inp : IngestInput D) (st : TrackingState D),
        (inp.map Prod.fst).Nodup → (∀ p ∈ inp, (p.2.map Prod.fst).Nodup) →
        generateArtifact (processAll inp (processAll inp st)) =
          generateArtifact (processAll inp st)) := by
  refine ⟨fun D ed c inp hc hsub => stepExpert_no_new_files ed c inp hc hsub,
    fun D inp st hnd hexp => processAll_stable inp st hnd hexp,
    fun D inp st hnd hexp => ?_⟩
  rw [processAll_stable inp st hnd hexp]

/-- C2 (amended).  Streaming weighted-mean update: for an already-seen
expert (stored centroid `c`, weight = number of distinct tracked files) with
new files present, the new centroid is
`(c * w_old + sum of the new files' chunk embeddings) / (w_old + m)` where
the added weight `m` is the number of chunks coming from the new files —
not the number of distinct new files.  For a previously unseen expert the
centroid is the arithmetic mean of all chunk embeddings and the recorded
file set (whose size is the next pass's weight) is the set of distinct new
files. -/
theorem claim_C2_streaming_update :
    (∀ (D : ℕ) (ed : ExpertData D) (inp : ExpertInput D) (c : Vec D),
        ed.centroid = some c → ed.files ≠ ∅ → inp.currentFiles \ ed.files ≠ ∅ →
        (stepExpert ed inp).2.1 = some (divV
          ((ed.files.card : ℚ) • c +
            ((inp.chunks.filter fun ch => ch.1 ∈ inp.currentFiles \ ed.files).map Prod.snd).sum)
          ((ed.files.card +
            (inp.chunks.filter fun ch => ch.1 ∈ inp.currentFiles \ ed.files).length : ℕ) : ℚ))) ∧
    (∀ (D : ℕ) (inp : ExpertInput D),
        inp.chunks ≠ [] → (∀ ch ∈ inp.chunks, ch.1 ∈ inp.currentFiles) →
        (stepExpert (⟨none, ∅⟩ : ExpertData D) inp).2.1 =
            some (divV (inp.chunks.map Prod.snd).sum ((inp.chunks.length : ℕ) : ℚ)) ∧
          (stepExpert (⟨none, ∅⟩ : ExpertData D) inp).1.files = inp.currentFiles) := by
  constructor
  · intro D ed inp c hc hfiles hnew
    rw [stepExpert_update ed inp c hc hfiles hnew]
  · intro D inp hch hsrc
    rw [stepExpert_unseen inp hch hsrc]
    exact ⟨rfl, rfl⟩

/-- C2 counterexample.  One tracked file `f1` (centroid `[1]`), one new file
`f2` contributing two chunks with embedding `[0]`.  The code divides by
`w_old + number of new chunks = 1 + 2` and yields `[1/3]`; the claimed
divisor `w_old + number of distinct new files = 1 + 1` would yield `[1/2]`. -/
theorem claim_C2_counterexample :
    (stepExpert (D := 1) ⟨some ![1], {"f1"}⟩
        ⟨{"f1", "f2"}, [("f2", ![0]), ("f2", ![0])]⟩).2.1 = some ![(1 : ℚ)/3] ∧
    some ![(1 : ℚ)/3] ≠
      some (divV ((1 : ℚ) • ![1] + (![0] + ![0])) ((1 + 1 : ℕ) : ℚ)) := by
  constructor
  · rw [stepExpert_update _ _ ![1] rfl (by decide) (by decide)]
    simp
    funext i
    fin_cases i
    norm_num [divV]
  · intro h
    simp only [Option.some.injEq] at h
    have h0 := congrFun h 0
    norm_num [divV] at h0

/-- C4 (amended).  After an ingestion pass, the stored centroid of every
group whose directory contained at least one expert directory is the
file-count-weighted mean of the post-pass stored centroids of the member
experts processed in that pass (those whose directories were present in the
scan and which have a centroid), weighted by their stored file counts; it is
recomputed from those members, never set independently.  Member experts
recorded in the tracking state but absent from the scan are not included. -/
theorem claim_C4_group_weighted_mean {D : ℕ} (inp : IngestInput D)
    (st : TrackingState D) (g : String) (inputs : List (String × ExpertInput D))
    (hnd : (inp.map Prod.fst).Nodup) (hend : (inputs.map Prod.fst).Nodup)
    (hmem : (g, inputs) ∈ inp) (hi : inputs ≠ []) :
    ∃ gd', alookup g (processAll inp st) = some gd' ∧
      ((inputs.filterMap fun p =>
          ((alookup p.1 gd'.experts).getD ⟨none, ∅⟩).centroid.map
            fun c => (c, ((alookup p.1 gd'.experts).getD ⟨none, ∅⟩).files)) ≠ [] →
        gd'.centroid = some (groupCentroid (inputs.filterMap fun p =>
          ((alookup p.1 gd'.experts).getD ⟨none, ∅⟩).centroid.map
            fun c => (c, ((alookup p.1 gd'.experts).getD ⟨none, ∅⟩).files)))) :=
  processAll_group_centroid inp st g inputs hnd hend hmem hi

theorem claim_C4_witness :
    ∃ gd', alookup "g" (processAll (D := 1) [("g", [("e", ⟨{"a"}, [("a", ![3])]⟩)])] []) = some gd' ∧
      (([("e", (⟨{"a"}, [("a", ![3])]⟩ : ExpertInput 1))].filterMap fun p =>
          ((alookup p.1 gd'.experts).getD ⟨none, ∅⟩).centroid.map
            fun c => (c, ((alookup p.1 gd'.experts).getD ⟨none, ∅⟩).files)) ≠ [] →
        gd'.centroid = some (groupCentroid
          ([("e", (⟨{"a"}, [("a", ![3])]⟩ : ExpertInput 1))].filterMap fun p =>
            ((alookup p.1 gd'.experts).getD ⟨none, ∅⟩).centroid.map
              fun c => (c, ((alookup p.1 gd'.experts).getD ⟨none, ∅⟩).files)))) :=
  claim_C4_group_weighted_mean _ _ "g" _ (by decide) (by decide)
    (List.mem_singleton.2 rfl) (by decide)

/-- C4 counterexample.  The tracking state holds group `g` with members `e1`
(centroid `[1]`, one file) and `e2` (centroid `[0]`, one file), but the scan
only contains `e1`'s directory with nothing new.  The pass stores group
centroid `[1]` — the weighted mean over the scanned member alone — whereas
the file-count-weighted mean over **all** member experts is `[1/2]`. -/
theorem claim_C4_counterexample :
    alookup "g" (processAll (D := 1)
        [("g", [("e1", ⟨{"a"}, []⟩)])]
        [("g", ⟨none, [("e1", ⟨some ![1], {"a"}⟩), ("e2", ⟨some ![0], {"b"}⟩)]⟩)]) =
      some ⟨some ![1], [("e1", ⟨some ![1], {"a"}⟩), ("e2", ⟨some ![0], {"b"}⟩)]⟩ ∧
    (![1] : Vec 1) ≠ divV ((1 : ℚ) • ![1] + (1 : ℚ) • ![0]) ((1 + 1 : ℕ) : ℚ) := by
  constructor
  · simp [processAll, stepGroup, foldExperts, stepExpertEntry, stepExpert, alookup, upsert,
      groupCentroid, stepNewFiles, stepSeed, stepChunks, stepEmbs, stepW]
    funext i
    fin_cases i
    simp [divV]
  · intro h
    have h0 := congrFun h 0
    norm_num [divV] at h0

/-- C8.  An expert's tracked-file set only grows across ingestion passes:
whatever group/expert entry exists before a pass still exists afterwards,
with a superset of tracked files. -/
theorem claim_C8_files_monotone {D : ℕ} (inp : IngestInput D) (st : TrackingState D)
    (g e : String) (gd : GroupData D) (ed : ExpertData D)
    (hg : alookup g st = some gd) (he : alookup e gd.experts = some ed) :
    ∃ gd' ed', alookup g (processAll inp st) = some gd' ∧
      alookup e gd'.experts = some ed' ∧ ed.files ⊆ ed'.files :=
  processAll_files_mono inp st hg he

/-! ### Session window and reload -/

theorem rtake_append_rtake {α : Type} (n : ℕ) (xs ys : List α) :
    (xs.rtake n ++ ys).rtake n = (xs ++ ys).rtake n := by
  simp only [List.rtake_eq_reverse_take_reverse, List.reverse_append, List.reverse_reverse]
  congr 1
  rw [List.take_append_eq_append_take, List.take_append_eq_append_take, List.take_take]
  congr 2
  exact inf_eq_left.2 (Nat.sub_le n _)

theorem length_rtake_le {α : Type} (n : ℕ) (l : List α) : (l.rtake n).length ≤ n := by
  rw [List.rtake_eq_reverse_take_reverse]
  simp only [List.length_reverse, List.length_take]
  exact min_le_left ..

/-- One `add_message` call appends and keeps the last `max_history`
(`lst[-max_history:]` in both branches of lines 97-98). -/
theorem getHistory_addMessage_self (st : SMState) (uid : String) (ts : ℚ) (q : String)
    (r : Option String) (c : String) (e : Option String) :
    getHistory (addMessage st uid ts q r c e) uid =
      (getHistory st uid ++ [mkMessage ts q r c e]).rtake maxHistory := by
  simp only [addMessage, getHistory, alookup_upsert_self, Option.getD_some]
  rw [List.rtake]
  split_ifs with h
  · rfl
  · rw [Nat.sub_eq_zero_of_le (Nat.le_of_not_lt h), List.drop_zero]

theorem getHistory_applyAdds (args : List AddArgs) (st : SMState) (uid : String)
    (hlen : (getHistory st uid).length ≤ maxHistory) :
    getHistory (applyAdds st uid args) uid =
      (getHistory st uid ++ args.map toEntry).rtake maxHistory := by
  induction args generalizing st with
  | nil =>
    show getHistory st uid = _
    rw [List.map_nil, List.append_nil, List.rtake, Nat.sub_eq_zero_of_le hlen, List.drop_zero]
  | cons a rest ih =>
    show getHistory (applyAdds (addMessage st uid a.ts a.query a.respAnswer a.ctx a.expert) uid rest) uid = _
    rw [ih _ (by rw [getHistory_addMessage_self]; exact length_rtake_le ..),
      getHistory_addMessage_self]
    show ((getHistory st uid ++ [toEntry a]).rtake maxHistory ++ rest.map toEntry).rtake maxHistory = _
    rw [rtake_append_rtake, List.append_assoc]
    rfl

theorem logFor_addMessage_self (st : SMState) (uid : String) (ts : ℚ) (q : String)
    (r : Option String) (c : String) (e : Option String) :
    logFor uid (addMessage st uid ts q r c e).log =
      logFor uid st.log ++ [mkMessage ts q r c e] := by
  simp [addMessage, logFor]

/-- `_log_conversation` only ever appends: the per-user durable log after a
sequence of `add_message` calls holds every recorded exchange. -/
theorem logFor_applyAdds (args : List AddArgs) (st : SMState) (uid : String) :
    logFor uid (applyAdds st uid args).log = logFor uid st.log ++ args.map toEntry := by
  induction args generalizing st with
  | nil => simp [applyAdds]
  | cons a rest ih =>
    show logFor uid (applyAdds (addMessage st uid a.ts a.query a.respAnswer a.ctx a.expert) uid rest).log = _
    rw [ih, logFor_addMessage_self, List.append_assoc]
    rfl

/-- C7.  After recording 7 exchanges for one session (from a fresh manager),
`get_history` returns exactly the 5 most recent in call (oldest-first)
order; and the in-memory history never exceeds 5 entries. -/
theorem claim_C7_seven_exchanges :
    (∀ (uid : String) (args : List AddArgs), args.length = 7 →
        getHistory (applyAdds ⟨[], []⟩ uid args) uid = (args.map toEntry).drop 2) ∧
    (∀ (uid : String) (args : List AddArgs),
        (getHistory (applyAdds ⟨[], []⟩ uid args) uid).length ≤ 5) := by
  constructor
  · intro uid args h7
    rw [getHistory_applyAdds args _ uid (by simp [getHistory, alookup])]
    show ((getHistory ⟨[], []⟩ uid ++ args.map toEntry)).rtake maxHistory = _
    have hh : getHistory (⟨[], []⟩ : SMState) uid = [] := rfl
    rw [hh, List.nil_append, List.rtake]
    rw [List.length_map, h7]
    rfl
  · intro uid args
    rw [getHistory_applyAdds args _ uid (by simp [getHistory, alookup])]
    exact length_rtake_le ..

theorem claim_C7_witness :
    getHistory (applyAdds ⟨[], []⟩ "u"
        [⟨1, "q1", some "a1", "", none⟩, ⟨2, "q2", some "a2", "", none⟩,
         ⟨3, "q3", some "a3", "", none⟩, ⟨4, "q4", some "a4", "", none⟩,
         ⟨5, "q5", some "a5", "", none⟩, ⟨6, "q6", some "a6", "", none⟩,
         ⟨7, "q7", some "a7", "", none⟩]) "u" =
      ([⟨1, "q1", some "a1", "", none⟩, ⟨2, "q2", some "a2", "", none⟩,
         ⟨3, "q3", some "a3", "", none⟩, ⟨4, "q4", some "a4", "", none⟩,
         ⟨5, "q5", some "a5", "", none⟩, ⟨6, "q6", some "a6", "", none⟩,
         ⟨7, "q7", some "a7", "", none⟩].map toEntry).drop 2 :=
  claim_C7_seven_exchanges.1 "u" _ rfl

theorem alookup_map_value {α β : Type} (f : α → β) (k : String) (l : List (String × α)) :
    alookup k (l.map fun p => (p.1, f p.2)) = (alookup k l).map f := by
  induction l with
  | nil => rfl
  | cons p rest ih =>
    by_cases h : p.1 = k <;> simp [alookup, h, ih]

theorem tsLe_trans : ∀ a b c : LogEntry, tsLe a b = true → tsLe b c = true → tsLe a c = true := by
  intro a b c
  simp only [tsLe, decide_eq_true_eq]
  exact le_trans

theorem tsLe_total : ∀ a b : LogEntry, (tsLe a b || tsLe b a) = true := by
  intro a b
  simp only [tsLe, Bool.or_eq_true, decide_eq_true_eq]
  exact le_total ..

/-- Every record `add_message` writes survives the reload filter. -/
theorem filterMap_keepLine_toEntry (es : List AddArgs) :
    es.filterMap (keepLine ∘ LogLine.entry ∘ toEntry) = es.map toEntry := by
  induction es with
  | nil => rfl
  | cons a rest ih =>
    simp only [List.filterMap_cons, Function.comp_apply, keepLine]
    rw [if_pos ⟨rfl, rfl⟩, ih, List.map_cons]

theorem splitUS_zero (acc rest : List Char) : splitUS 0 acc rest = [acc.reverse ++ rest] := by
  cases rest with
  | nil => simp [splitUS]
  | cons c cs => rfl

/-- Walking an underscore-free segment consumes it into the current part and
splits at the separator that follows. -/
theorem splitUS_step {a : List Char} (ha : '_' ∉ a) (n : ℕ) (acc rest : List Char) :
    splitUS (n + 1) acc (a ++ '_' :: rest) = (acc.reverse ++ a) :: splitUS n [] rest := by
  induction a generalizing acc with
  | nil => simp [splitUS]
  | cons c a' ih =>
    have hc : ¬c = '_' := fun h => ha (List.mem_cons.2 (Or.inl h.symm))
    simp only [List.cons_append, splitUS, if_neg hc]
    rw [List.append_eq, ih (fun h => ha (List.mem_cons_of_mem c h))]
    simp [List.append_assoc]

/-- The filename parse of `_load_sessions_from_disk` recovers exactly the
session ids made of two underscore-separated segments: for such an id the
per-day log file name round-trips to the id itself. -/
theorem userIdOfFilename_logFileName (uid date : String) (a b : List Char)
    (hdata : uid.data = a ++ '_' :: b) (ha : '_' ∉ a) (hb : '_' ∉ b) :
    userIdOfFilename (logFileName uid date) = some uid := by
  have hd : (logFileName uid date).data =
      a ++ '_' :: (b ++ '_' :: (date.data ++ (".jsonl" : String).data)) := by
    simp only [logFileName, String.data_append, hdata]
    simp [List.append_assoc]
  unfold userIdOfFilename pySplit2
  rw [hd, show (2 : ℕ) = 1 + 1 from rfl, splitUS_step ha, splitUS_step hb, splitUS_zero]
  simp only [List.reverse_nil, List.nil_append, List.map_cons]
  have hstr : (String.mk a ++ "_" ++ String.mk b) = uid := by
    have h1 : (String.mk a ++ "_" ++ String.mk b) = String.mk ((a ++ ['_']) ++ b) := rfl
    rw [h1]
    obtain ⟨ud⟩ := uid
    have hdata2 : ud = a ++ '_' :: b := hdata
    exact congrArg String.mk (by simp [hdata2, List.append_assoc])
  rw [hstr]

/-- C10 counterexample.  The filename parse (lines 32-35) takes the first
two underscore-separated segments, so for the session id `"alice"` the
per-day file `alice_2025-04-06.jsonl` reloads under the key
`"alice_2025-04-06.jsonl"`: after a restart `get_history("alice")` finds
nothing although an exchange was recorded and durably logged — history does
not survive a restart for this legal session id. -/
theorem claim_C10_counterexample :
    userIdOfFilename (logFileName "alice" "2025-04-06") = some "alice_2025-04-06.jsonl" ∧
    (loadSessions [(logFileName "alice" "2025-04-06",
        (logFor "alice" (applyAdds ⟨[], []⟩ "alice" [⟨1, "q", some "a", "", none⟩]).log).map
          LogLine.entry)]).map (fun loaded => alookup "alice" loaded) = some none ∧
    getHistory (applyAdds ⟨[], []⟩ "alice" [⟨1, "q", some "a", "", none⟩]) "alice" ≠ [] := by
  refine ⟨by decide, by decide, by decide⟩

/-- C10 (amended).  `_load_sessions_from_disk` rebuilds the in-memory
histories from the per-day JSONL logs, recovering each session id from the
file name as its first two underscore-separated segments: malformed lines
are skipped; entries lacking both a query and a response (system events)
are skipped; every loaded history is sorted by timestamp and holds at most
the 5 most recent messages; and reloading the log written by a sequence of
`add_message` calls (nondecreasing wall-clock timestamps) reproduces
exactly the in-memory history for every session whose id consists of two
underscore-separated segments — the shape the system generates
(`user_<timestamp>`, `user_default`) — while other ids are reloaded under a
different key (see the counterexample). -/
theorem claim_C10_reload_from_disk :
    (∀ (fn raw : String) (l₁ l₂ : List LogLine),
        loadSessions [(fn, l₁ ++ LogLine.malformed raw :: l₂)] =
          loadSessions [(fn, l₁ ++ l₂)]) ∧
    (∀ (fn : String) (e : LogEntry) (l₁ l₂ : List LogLine),
        e.query = none → e.response = none →
        loadSessions [(fn, l₁ ++ LogLine.entry e :: l₂)] =
          loadSessions [(fn, l₁ ++ l₂)]) ∧
    (∀ (files : List (String × List LogLine)) (loaded : List (String × List LogEntry))
        (uid : String) (h : List LogEntry),
        loadSessions files = some loaded → alookup uid loaded = some h →
        List.Pairwise (fun a b => a.timestamp.getD 0 ≤ b.timestamp.getD 0) h ∧
          h.length ≤ maxHistory) ∧
    (∀ (uid date : String) (a b : List Char),
        uid.data = a ++ '_' :: b → '_' ∉ a → '_' ∉ b →
        ∀ (args : List AddArgs),
        List.Pairwise (fun x y : AddArgs => x.ts ≤ y.ts) args →
        loadSessions [(logFileName uid date,
            (logFor uid (applyAdds ⟨[], []⟩ uid args).log).map LogLine.entry)] =
          some [(uid, getHistory (applyAdds ⟨[], []⟩ uid args) uid)]) := by
  refine ⟨?_, ?_, ?_, ?_⟩
  · intro fn raw l₁ l₂
    cases hp : userIdOfFilename fn with
    | none => simp [loadSessions, hp]
    | some uid => simp [loadSessions, hp, List.filterMap_append, List.filterMap_cons, keepLine]
  · intro fn e l₁ l₂ hq hr
    cases hp : userIdOfFilename fn with
    | none => simp [loadSessions, hp]
    | some uid =>
      simp [loadSessions, hp, List.filterMap_append, List.filterMap_cons, keepLine, hq]
  · intro files loaded uid h hload hlook
    simp only [loadSessions] at hload
    obtain ⟨acc, hacc, rfl⟩ := Option.map_eq_some'.1 hload
    rw [alookup_map_value (fun ms : List LogEntry => (ms.mergeSort tsLe).rtake maxHistory)]
      at hlook
    obtain ⟨ms, hms, rfl⟩ := Option.map_eq_some'.1 hlook
    constructor
    · have hms2 := List.sorted_mergeSort tsLe_trans tsLe_total ms
      have hsub : ((ms.mergeSort tsLe).rtake maxHistory).Sublist (ms.mergeSort tsLe) := by
        rw [List.rtake]
        exact List.drop_sublist ..
      refine List.Pairwise.imp ?_ (List.Pairwise.sublist hsub hms2)
      intro a b
      simp only [tsLe, decide_eq_true_eq]
      exact id
    · exact length_rtake_le ..
  · intro uid date a b hdata ha hb args hsorted
    have hparse := userIdOfFilename_logFileName uid date a b hdata ha hb
    have hlog : logFor uid (applyAdds ⟨[], []⟩ uid args).log = args.map toEntry := by
      rw [logFor_applyAdds]
      rfl
    rw [hlog]
    have hacc : loadSessions [(logFileName uid date, (args.map toEntry).map LogLine.entry)] =
        some [(uid, ((args.map toEntry).mergeSort tsLe).rtake maxHistory)] := by
      simp [loadSessions, hparse, upsert, filterMap_keepLine_toEntry]
    rw [hacc]
    have hpair : List.Pairwise (fun a b => tsLe a b = true) (args.map toEntry) := by
      rw [List.pairwise_map]
      refine hsorted.imp ?_
      intro a b hab
      simp only [tsLe, toEntry, mkMessage, Option.getD_some, decide_eq_true_eq]
      exact hab
    rw [List.mergeSort_of_sorted hpair]
    rw [getHistory_applyAdds args _ uid (by simp [getHistory, alookup])]
    rfl

/-- C6 counterexample.  Six `add_message` calls for one session leave six
entries in the durable session log: `_log_conversation` (lines 172-186)
only appends, so durable storage does not enforce the 5-exchange window. -/
theorem claim_C6_counterexample :
    ¬ ((logFor "u" (applyAdds ⟨[], []⟩ "u"
        [⟨1, "q1", some "a1", "", none⟩, ⟨2, "q2", some "a2", "", none⟩,
         ⟨3, "q3", some "a3", "", none⟩, ⟨4, "q4", some "a4", "", none⟩,
         ⟨5, "q5", some "a5", "", none⟩, ⟨6, "q6", some "a6", "", none⟩]).log).length ≤ 5) := by
  decide

/-- C6 (amended).  `add_message` enforces the 5-exchange sliding window in
memory only: the in-memory history is always the last 5 recorded exchanges
(never more), while the durable session log is append-only and retains
every exchange; the window is applied to the durable data only when it is
reloaded (see the reload theorem). -/
theorem claim_C6_window_in_memory_only :
    (∀ (uid : String) (args : List AddArgs),
        getHistory (applyAdds ⟨[], []⟩ uid args) uid = (args.map toEntry).rtake maxHistory ∧
        (getHistory (applyAdds ⟨[], []⟩ uid args) uid).length ≤ maxHistory) ∧
    (∀ (uid : String) (args : List AddArgs),
        logFor uid (applyAdds ⟨[], []⟩ uid args).log = args.map toEntry) := by
  constructor
  · intro uid args
    constructor
    · rw [getHistory_applyAdds args _ uid (by simp [getHistory, alookup])]
      rfl
    · rw [getHistory_applyAdds args _ uid (by simp [getHistory, alookup])]
      exact length_rtake_le ..
  · intro uid args
    rw [logFor_applyAdds]
    rfl

theorem claim_C8_witness :
    ∃ gd' ed',
      alookup "g" (processAll (D := 1)
        [("g", [("e", ⟨{"a", "b"}, [("b", ![2])]⟩)])]
        [("g", ⟨none, [("e", ⟨none, {"a"}⟩)]⟩)]) = some gd' ∧
      alookup "e" gd'.experts = some ed' ∧ ({"a"} : Finset String) ⊆ ed'.files :=
  claim_C8_files_monotone _ _ "g" "e" ⟨none, [("e", ⟨none, {"a"}⟩)]⟩ ⟨none, {"a"}⟩
    (by decide) (by decide)

/-! ### Routing: the rational comparison decides the real cosine order -/

/-- The Boolean comparison used by the modelled router decides the
real-valued cosine-similarity order exactly, for nonzero vectors. -/
theorem cosGt_iff_cosSimR {D : ℕ} (q a b : Vec D)
    (hq : 0 < dotV q q) (ha : 0 < dotV a a) (hb : 0 < dotV b b) :
    cosGt q a b = true ↔ cosSimR q b < cosSimR q a := by
  have hQ : (0 : ℝ) < ((dotV q q : ℚ) : ℝ) := by exact_mod_cast hq
  have hA : (0 : ℝ) < ((dotV a a : ℚ) : ℝ) := by exact_mod_cast ha
  have hB : (0 : ℝ) < ((dotV b b : ℚ) : ℝ) := by exact_mod_cast hb
  have hsq : 0 < Real.sqrt ((dotV q q : ℚ) : ℝ) := Real.sqrt_pos.2 hQ
  have hsa : 0 < Real.sqrt ((dotV a a : ℚ) : ℝ) := Real.sqrt_pos.2 hA
  have hsb : 0 < Real.sqrt ((dotV b b : ℚ) : ℝ) := Real.sqrt_pos.2 hB
  have hsa2 : Real.sqrt ((dotV a a : ℚ) : ℝ) ^ 2 = ((dotV a a : ℚ) : ℝ) := Real.sq_sqrt hA.le
  have hsb2 : Real.sqrt ((dotV b b : ℚ) : ℝ) ^ 2 = ((dotV b b : ℚ) : ℝ) := Real.sq_sqrt hB.le
  have hstep : (cosSimR q b < cosSimR q a) ↔
      ((dotV q b : ℚ) : ℝ) * Real.sqrt ((dotV a a : ℚ) : ℝ) <
        ((dotV q a : ℚ) : ℝ) * Real.sqrt ((dotV b b : ℚ) : ℝ) := by
    unfold cosSimR
    rw [div_lt_div_iff₀ (mul_pos hsq hsb) (mul_pos hsq hsa)]
    have e1 : ((dotV q b : ℚ) : ℝ) *
          (Real.sqrt ((dotV q q : ℚ) : ℝ) * Real.sqrt ((dotV a a : ℚ) : ℝ)) =
        Real.sqrt ((dotV q q : ℚ) : ℝ) *
          (((dotV q b : ℚ) : ℝ) * Real.sqrt ((dotV a a : ℚ) : ℝ)) := by ring
    have e2 : ((dotV q a : ℚ) : ℝ) *
          (Real.sqrt ((dotV q q : ℚ) : ℝ) * Real.sqrt ((dotV b b : ℚ) : ℝ)) =
        Real.sqrt ((dotV q q : ℚ) : ℝ) *
          (((dotV q a : ℚ) : ℝ) * Real.sqrt ((dotV b b : ℚ) : ℝ)) := by ring
    rw [e1, e2, mul_lt_mul_left hsq]
  rw [hstep]
  unfold cosGt
  by_cases h1 : 0 ≤ dotV q b
  · have hDB : (0 : ℝ) ≤ ((dotV q b : ℚ) : ℝ) := by exact_mod_cast h1
    by_cases h2 : dotV q a ≤ 0
    · have hDA : ((dotV q a : ℚ) : ℝ) ≤ 0 := by exact_mod_cast h2
      rw [if_pos h1, if_pos h2]
      simp only [Bool.false_eq_true, false_iff, not_lt]
      exact (mul_nonpos_of_nonpos_of_nonneg hDA hsb.le).trans (mul_nonneg hDB hsa.le)
    · have hda : 0 < dotV q a := lt_of_not_ge h2
      have hDA : (0 : ℝ) < ((dotV q a : ℚ) : ℝ) := by exact_mod_cast hda
      rw [if_pos h1, if_neg h2]
      simp only [decide_eq_true_eq]
      constructor
      · intro hlt
        have hR : ((dotV q b : ℚ) : ℝ) ^ 2 * ((dotV a a : ℚ) : ℝ) <
            ((dotV q a : ℚ) : ℝ) ^ 2 * ((dotV b b : ℚ) : ℝ) := by exact_mod_cast hlt
        by_contra hno
        push_neg at hno
        have hsq2 : ((dotV q a : ℚ) : ℝ) * Real.sqrt ((dotV b b : ℚ) : ℝ) *
              (((dotV q a : ℚ) : ℝ) * Real.sqrt ((dotV b b : ℚ) : ℝ)) ≤
            ((dotV q b : ℚ) : ℝ) * Real.sqrt ((dotV a a : ℚ) : ℝ) *
              (((dotV q b : ℚ) : ℝ) * Real.sqrt ((dotV a a : ℚ) : ℝ)) :=
          mul_self_le_mul_self (mul_nonneg hDA.le hsb.le) hno
        nlinarith [hsa2, hsb2]
      · intro hlt
        have hsq2 : ((dotV q b : ℚ) : ℝ) * Real.sqrt ((dotV a a : ℚ) : ℝ) *
              (((dotV q b : ℚ) : ℝ) * Real.sqrt ((dotV a a : ℚ) : ℝ)) <
            ((dotV q a : ℚ) : ℝ) * Real.sqrt ((dotV b b : ℚ) : ℝ) *
              (((dotV q a : ℚ) : ℝ) * Real.sqrt ((dotV b b : ℚ) : ℝ)) :=
          mul_self_lt_mul_self (mul_nonneg hDB hsa.le) hlt
        have hR : ((dotV q b : ℚ) : ℝ) ^ 2 * ((dotV a a : ℚ) : ℝ) <
            ((dotV q a : ℚ) : ℝ) ^ 2 * ((dotV b b : ℚ) : ℝ) := by
          nlinarith [hsa2, hsb2]
        exact_mod_cast hR
  · have hdb : dotV q b < 0 := lt_of_not_ge h1
    have hDB : ((dotV q b : ℚ) : ℝ) < 0 := by exact_mod_cast hdb
    by_cases h3 : 0 ≤ dotV q a
    · have hDA : (0 : ℝ) ≤ ((dotV q a : ℚ) : ℝ) := by exact_mod_cast h3
      rw [if_neg h1, if_pos h3]
      simp only [true_iff]
      exact lt_of_lt_of_le (mul_neg_of_neg_of_pos hDB hsa) (mul_nonneg hDA hsb.le)
    · have hda : dotV q a < 0 := lt_of_not_ge h3
      have hDA : ((dotV q a : ℚ) : ℝ) < 0 := by exact_mod_cast hda
      rw [if_neg h1, if_neg h3]
      simp only [decide_eq_true_eq]
      constructor
      · intro hlt
        have hR : ((dotV q a : ℚ) : ℝ) ^ 2 * ((dotV b b : ℚ) : ℝ) <
            ((dotV q b : ℚ) : ℝ) ^ 2 * ((dotV a a : ℚ) : ℝ) := by exact_mod_cast hlt
        by_contra hno
        push_neg at hno
        have h5 : -(((dotV q b : ℚ) : ℝ) * Real.sqrt ((dotV a a : ℚ) : ℝ)) ≤
            -(((dotV q a : ℚ) : ℝ) * Real.sqrt ((dotV b b : ℚ) : ℝ)) := neg_le_neg hno
        have h6 : (0:ℝ) ≤ -(((dotV q b : ℚ) : ℝ) * Real.sqrt ((dotV a a : ℚ) : ℝ)) := by
          nlinarith [mul_neg_of_neg_of_pos hDB hsa]
        have h7 := mul_self_le_mul_self h6 h5
        nlinarith [h7, hsa2, hsb2]
      · intro hlt
        have hneg : -(((dotV q a : ℚ) : ℝ) * Real.sqrt ((dotV b b : ℚ) : ℝ)) <
            -(((dotV q b : ℚ) : ℝ) * Real.sqrt ((dotV a a : ℚ) : ℝ)) := neg_lt_neg hlt
        have hnn : (0:ℝ) ≤ -(((dotV q a : ℚ) : ℝ) * Real.sqrt ((dotV b b : ℚ) : ℝ)) := by
          nlinarith [mul_neg_of_neg_of_pos hDA hsb]
        have h7 := mul_self_lt_mul_self hnn hneg
        have hR : ((dotV q a : ℚ) : ℝ) ^ 2 * ((dotV b b : ℚ) : ℝ) <
            ((dotV q b : ℚ) : ℝ) ^ 2 * ((dotV a a : ℚ) : ℝ) := by
          nlinarith [h7, hsa2, hsb2]
        exact_mod_cast hR

/-- The argmax fold of the modelled router: on a non-empty candidate list
it returns the first candidate attaining the maximal cosine similarity —
membership, maximality, and the first-maximum tie-break. -/
theorem selectBest_spec {α : Type} {D : ℕ} (q : Vec D) (cen : α → Vec D) :
    ∀ (xs : List α) (x : α), 0 < dotV q q →
    (∀ y ∈ x :: xs, 0 < dotV (cen y) (cen y)) →
    ∃ r, selectBest q cen (x :: xs) = some r ∧ r ∈ x :: xs ∧
      (∀ y ∈ x :: xs, cosSimR q (cen y) ≤ cosSimR q (cen r)) ∧
      ∃ l₁ l₂, x :: xs = l₁ ++ r :: l₂ ∧
        ∀ y ∈ l₁, cosSimR q (cen y) < cosSimR q (cen r) := by
  intro xs
  induction xs with
  | nil =>
    intro x _ _
    exact ⟨x, rfl, by simp, by simp, [], [], rfl, by simp⟩
  | cons y ys ih =>
    intro x hq hcen
    have hsel : selectBest q cen (x :: y :: ys) =
        selectBest q cen ((if cosGt q (cen y) (cen x) then y else x) :: ys) := rfl
    by_cases hgy : cosGt q (cen y) (cen x) = true
    · have hlt : cosSimR q (cen x) < cosSimR q (cen y) :=
        (cosGt_iff_cosSimR q (cen y) (cen x) hq (hcen y (by simp)) (hcen x (by simp))).1 hgy
      obtain ⟨r, hsel2, hmem, hmax, l₁, l₂, hsplit, hl₁⟩ :=
        ih y hq (fun z hz => hcen z (by
          rcases List.mem_cons.1 hz with rfl | hz2
          · simp
          · simp [hz2]))
      have hyr : cosSimR q (cen y) ≤ cosSimR q (cen r) := hmax y (by simp)
      refine ⟨r, ?_, ?_, ?_, x :: l₁, l₂, ?_, ?_⟩
      · rw [hsel, if_pos hgy]
        exact hsel2
      · exact List.mem_cons_of_mem x hmem
      · intro z hz
        rcases List.mem_cons.1 hz with rfl | hz2
        · exact (hlt.trans_le hyr).le
        · exact hmax z hz2
      · rw [List.cons_append, hsplit]
      · intro z hz
        rcases List.mem_cons.1 hz with rfl | hz2
        · exact hlt.trans_le hyr
        · exact hl₁ z hz2
    · have hle : cosSimR q (cen y) ≤ cosSimR q (cen x) := by
        refine not_lt.1 fun hc => hgy ?_
        exact (cosGt_iff_cosSimR q (cen y) (cen x) hq (hcen y (by simp)) (hcen x (by simp))).2 hc
      obtain ⟨r, hsel2, hmem, hmax, l₁, l₂, hsplit, hl₁⟩ :=
        ih x hq (fun z hz => hcen z (by
          rcases List.mem_cons.1 hz with rfl | hz2
          · simp
          · simp [hz2]))
      have hxr : cosSimR q (cen x) ≤ cosSimR q (cen r) := hmax x (by simp)
      have hmem' : r ∈ x :: y :: ys := by
        rcases List.mem_cons.1 hmem with rfl | h2
        · simp
        · simp [h2]
      have hmax' : ∀ z ∈ x :: y :: ys, cosSimR q (cen z) ≤ cosSimR q (cen r) := by
        intro z hz
        rcases List.mem_cons.1 hz with rfl | hz2
        · exact hxr
        · rcases List.mem_cons.1 hz2 with rfl | hz3
          · exact hle.trans hxr
          · exact hmax z (List.mem_cons_of_mem x hz3)
      refine ⟨r, ?_, hmem', hmax', ?_⟩
      · rw [hsel, if_neg hgy]
        exact hsel2
      · rcases l₁ with _ | ⟨a, l₁'⟩
        · obtain ⟨hxr2, hys⟩ := List.cons.injEq .. ▸ hsplit
          refine ⟨[], y :: ys, ?_, by simp⟩
          rw [← hxr2]
          rfl
        · rw [List.cons_append] at hsplit
          obtain ⟨hax, hys⟩ := List.cons.injEq .. ▸ hsplit
          refine ⟨x :: y :: l₁', l₂, ?_, ?_⟩
          · rw [List.cons_append, List.cons_append, ← hys]
          · intro z hz
            have hxltr : cosSimR q (cen x) < cosSimR q (cen r) := by
              rw [hax]
              exact hl₁ a (by simp)
            rcases List.mem_cons.1 hz with rfl | hz2
            · exact hxltr
            · rcases List.mem_cons.1 hz2 with rfl | hz3
              · exact hle.trans_lt hxltr
              · exact hl₁ z (List.mem_cons_of_mem a hz3)

/-- C1.  Two-stage routing: for every store with at least one group, the
router returns the group whose centroid has maximal cosine similarity to the
query (ties broken by insertion order — the first maximum wins) and, within
that chosen group only, the member expert of maximal cosine similarity; the
expert argmax never ranges over other groups' experts. -/
theorem claim_C1_two_stage_routing {D : ℕ} (q : Vec D) (store : List (RGroup D))
    (hne : store ≠ []) (hq : 0 < dotV q q)
    (hst : ∀ g ∈ store, 0 < dotV g.centroid g.centroid ∧ g.experts ≠ [] ∧
      ∀ e ∈ g.experts, 0 < dotV e.centroid e.centroid) :
    ∃ g e, route q store = some (g, e) ∧ g ∈ store ∧ e ∈ g.experts ∧
      (∀ g' ∈ store, cosSimR q g'.centroid ≤ cosSimR q g.centroid) ∧
      (∀ e' ∈ g.experts, cosSimR q e'.centroid ≤ cosSimR q e.centroid) ∧
      (∃ l₁ l₂, store = l₁ ++ g :: l₂ ∧
        ∀ g' ∈ l₁, cosSimR q g'.centroid < cosSimR q g.centroid) ∧
      (∃ m₁ m₂, g.experts = m₁ ++ e :: m₂ ∧
        ∀ e' ∈ m₁, cosSimR q e'.centroid < cosSimR q e.centroid) := by
  obtain ⟨x, xs, rfl⟩ := List.exists_cons_of_ne_nil hne
  obtain ⟨gr, hsel, hmem, hmax, l₁, l₂, hsplit, hl₁⟩ :=
    selectBest_spec q RGroup.centroid xs x hq (fun y hy => (hst y hy).1)
  obtain ⟨m, ms, hex⟩ := List.exists_cons_of_ne_nil (hst gr hmem).2.1
  obtain ⟨er, hsel2, hmem2, hmax2, m₁, m₂, hsplit2, hm₁⟩ :=
    selectBest_spec q RExpert.centroid ms m hq
      (fun e he => (hst gr hmem).2.2 e (hex ▸ he))
  refine ⟨gr, er, ?_, hmem, hex ▸ hmem2, hmax,
    (fun e' he' => hmax2 e' (by rw [← hex]; exact he')),
    ⟨l₁, l₂, hsplit, hl₁⟩, ⟨m₁, m₂, by rw [hex, hsplit2], hm₁⟩⟩
  rw [route, hsel]
  show (match selectBest q RExpert.centroid gr.experts with
    | none => none
    | some e => some (gr, e)) = some (gr, er)
  rw [hex, hsel2]

theorem claim_C1_witness :
    ∃ g e, route (D := 3) ![0, 0, 1]
        [⟨"Science", ![2, 3, 0], [⟨"Biology", ![1, 0, 0]⟩, ⟨"Physics", ![0, 1, 0]⟩]⟩,
         ⟨"Wellness", ![0, 0, 1], [⟨"Anxiety", ![0, 0, 1]⟩]⟩] = some (g, e) ∧
      g ∈ [⟨"Science", ![2, 3, 0], [⟨"Biology", ![1, 0, 0]⟩, ⟨"Physics", ![0, 1, 0]⟩]⟩,
         (⟨"Wellness", ![0, 0, 1], [⟨"Anxiety", ![0, 0, 1]⟩]⟩ : RGroup 3)] ∧
      e ∈ g.experts ∧
      (∀ g' ∈ [⟨"Science", ![2, 3, 0], [⟨"Biology", ![1, 0, 0]⟩, ⟨"Physics", ![0, 1, 0]⟩]⟩,
         (⟨"Wellness", ![0, 0, 1], [⟨"Anxiety", ![0, 0, 1]⟩]⟩ : RGroup 3)],
        cosSimR ![0, 0, 1] g'.centroid ≤ cosSimR ![0, 0, 1] g.centroid) ∧
      (∀ e' ∈ g.experts, cosSimR ![0, 0, 1] e'.centroid ≤ cosSimR ![0, 0, 1] e.centroid) ∧
      (∃ l₁ l₂, [⟨"Science", ![2, 3, 0], [⟨"Biology", ![1, 0, 0]⟩, ⟨"Physics", ![0, 1, 0]⟩]⟩,
         (⟨"Wellness", ![0, 0, 1], [⟨"Anxiety", ![0, 0, 1]⟩]⟩ : RGroup 3)] = l₁ ++ g :: l₂ ∧
        ∀ g' ∈ l₁, cosSimR ![0, 0, 1] g'.centroid < cosSimR ![0, 0, 1] g.centroid) ∧
      (∃ m₁ m₂, g.experts = m₁ ++ e :: m₂ ∧
        ∀ e' ∈ m₁, cosSimR ![0, 0, 1] e'.centroid < cosSimR ![0, 0, 1] e.centroid) :=
  claim_C1_two_stage_routing ![0, 0, 1] _ (by simp)
    (by norm_num [dotV, Fin.sum_univ_succ])
    (by
      intro g hg
      simp only [List.mem_cons, List.not_mem_nil, or_false] at hg
      rcases hg with rfl | rfl
      · refine ⟨by norm_num [dotV, Fin.sum_univ_succ], by simp, ?_⟩
        intro e he
        simp only [List.mem_cons, List.not_mem_nil, or_false] at he
        rcases he with rfl | rfl <;> norm_num [dotV, Fin.sum_univ_succ]
      · refine ⟨by norm_num [dotV, Fin.sum_univ_succ], by simp, ?_⟩
        intro e he
        simp only [List.mem_cons, List.not_mem_nil, or_false] at he
        rcases he with rfl
        norm_num [dotV, Fin.sum_univ_succ])

/-! ### Degraded responses and session-id defaulting -/

/-- C5.  When the generation collaborator raises (API failure or timeout),
the caller of the query endpoint still receives a well-formed response whose
answer is the non-empty explanatory string and whose `sources` is 0; the
failure is swallowed inside `generate_response`'s `except` clause (it is a
total function into response dicts), never propagated. -/
theorem claim_C5_generation_failure_degraded :
    ∀ (req : QueryRequest) (context : List (List String)) (msg : String) (be : Option String),
      (process_query req (route_query_result (generate_response true context (.err msg)) be)).answer ≠ ""
      ∧ (process_query req (route_query_result (generate_response true context (.err msg)) be)).sources
          = 0 := by
  intro req context msg be
  refine ⟨?_, rfl⟩
  show ("Error generating response: " ++ msg) ≠ ""
  intro hcontra
  have hlen := congrArg String.length hcontra
  rw [String.length_append] at hlen
  have h27 : ("Error generating response: ").length = 27 := rfl
  have h0 : ("" : String).length = 0 := rfl
  omega

/-- C9.  A query request whose `session_id` is absent or null is served
under the constant session id `"user_default"`; hence all such anonymous
requests share one session key — one history and one conversation context. -/
theorem claim_C9_default_session_id (req : QueryRequest)
    (routed : RespDict × Option String) (h : req.session_id = none) :
    (process_query req routed).session_id = "user_default" ∧
    (∀ (req2 : QueryRequest) (routed2 : RespDict × Option String), req2.session_id = none →
      (process_query req2 routed2).session_id = (process_query req routed).session_id) := by
  constructor
  · simp [process_query, pyOr, h]
  · intro req2 routed2 h2
    simp [process_query, pyOr, h, h2]

theorem claim_C9_witness :
    (process_query ⟨"hello", none⟩ (⟨some "hi", some 2⟩, some "expert_a")).session_id
        = "user_default" ∧
    (∀ (req2 : QueryRequest) (routed2 : RespDict × Option String), req2.session_id = none →
      (process_query req2 routed2).session_id =
        (process_query ⟨"hello", none⟩ (⟨some "hi", some 2⟩, some "expert_a")).session_id) :=
  claim_C9_default_session_id ⟨"hello", none⟩ (⟨some "hi", some 2⟩, some "expert_a") rfl

end SemanticRouter
